import Mathlib

/-!
# MyCroft productivity bookkeeping engine — verification

Shallow embedding of the streak / XP / leveling / achievement / time-session
logic of the MyCroft VS Code extension, together with proofs about it.

Sources embedded:
* `AchievementService` (XP, leveling, achievement evaluation),
* `TimeTrackingService` (session end, breaks, remaining time),
* `ActivityLoggerProvider.calculateStreak` / `calculateLongestStreak`,
* `AnalyticsService.analyzeStreakPatterns`,
* the XP / leveling / achievement constants from `constants.ts`.

Timestamps are modelled as integer milliseconds, calendar dates as natural
day numbers (consecutive calendar days differ by exactly 1), and JavaScript
number arithmetic as exact rational arithmetic (all quantities appearing here
are small enough that IEEE doubles are exact on them).
-/

namespace MyCroft

/-- JavaScript `Math.round`: round half toward positive infinity. -/
def jsRound (q : ℚ) : ℤ := Int.floor (q + 1/2)

/-! ## Constants (`constants.ts`) -/

def XP_PER_ACTIVITY : ℚ := 5

def XP_PER_MINUTE : ℚ := 1/2

def XP_BONUS_STREAK : ℚ := 2

/-- `LEVEL_THRESHOLDS` from `constants.ts`, a fixed ascending 20-entry table. -/
def LEVEL_THRESHOLDS : List ℤ :=
  [0, 100, 250, 450, 700, 1000, 1350, 1750, 2200, 2700,
   3250, 3850, 4500, 5200, 5950, 6750, 7600, 8500, 9450, 10450]

/-! ## Data model -/

/-- One logged activity.  `date` is a calendar day number; `hour` is the
hour-of-day that JavaScript's `new Date(date + ' ' + time).getHours()`
extracts from the stored `date`/`time` strings. -/
structure Activity where
  id : ℕ
  date : ℕ
  hour : ℕ
  category : String
  duration : Option ℕ
  focusScore : Option ℕ
deriving DecidableEq, Repr

/-- A break inside a time session (`Break` in `types.ts`).  `endTime = none`
models the empty-string placeholder before the break is closed. -/
structure Break where
  startTime : ℤ
  endTime : Option ℤ
  duration : ℤ
deriving DecidableEq, Repr

/-- A focus-timer session (`TimeSession`).  While active, `duration` holds the
planned duration in minutes; `endSession` overwrites it with the elapsed
wall-clock minutes. -/
structure TimeSession where
  id : ℕ
  startTime : ℤ
  endTime : Option ℤ
  duration : ℤ
  type : String
  isActive : Bool
  breaks : List Break
  focusScore : ℕ
  interruptions : ℕ
deriving DecidableEq, Repr

/-- An unlocked-or-in-progress achievement record as built by
`evaluateAchievement` and stored in the user profile. -/
structure Achievement where
  id : String
  name : String
  xpReward : ℤ
  progress : ℤ
  unlockedAt : Option ℤ
deriving DecidableEq, Repr

/-- A static catalog entry from the `ACHIEVEMENTS` table in `constants.ts`. -/
structure AchievementTemplate where
  id : String
  name : String
  xpReward : ℤ
deriving DecidableEq, Repr

/-- The user profile fields the bookkeeping engine reads and writes. -/
structure UserProfile where
  level : ℕ
  xp : ℤ
  currentStreak : ℕ
  longestStreak : ℕ
  achievements : List Achievement
deriving DecidableEq, Repr

/-! ## XP engine (`AchievementService.calculateActivityXP`) -/

/-- The category-bonus lookup table inlined in `calculateActivityXP`;
unlisted categories get 0. -/
def categoryBonus (category : String) : ℚ :=
  if category = "Code Review" then 3
  else if category = "Documentation" then 2
  else if category = "Testing" then 2
  else if category = "Learning" then 1
  else 0

/-- `AchievementService.calculateActivityXP`.  JavaScript truthiness: a
`duration` of `0` (or absent) earns no time bonus, an absent `focusScore`
earns no focus bonus. -/
def calculateActivityXP (activity : Activity) (currentStreak : ℕ) : ℤ :=
  let xp : ℚ := XP_PER_ACTIVITY
  let xp : ℚ :=
    match activity.duration with
    | some d => if d ≠ 0 then xp + d * XP_PER_MINUTE else xp
    | none => xp
  let xp : ℚ := xp + currentStreak * XP_BONUS_STREAK
  let xp : ℚ :=
    match activity.focusScore with
    | some f => if f ≠ 0 ∧ f ≥ 8 then xp + 5 else xp
    | none => xp
  let xp : ℚ := xp + categoryBonus activity.category
  jsRound xp

/-! ## Leveling (`AchievementService.calculateLevel`) -/

/-- The descending scan `for (let i = len-1; i >= 0; i--) if (xp >= t[i])
return i+1;` of `calculateLevel`, with `i` the current loop index. -/
def calcLevelAux (thresholds : List ℤ) : ℕ → ℤ → ℕ
  | 0, xp => if xp ≥ thresholds.getD 0 0 then 1 else 1
  | i + 1, xp =>
      if xp ≥ thresholds.getD (i + 1) 0 then i + 2 else calcLevelAux thresholds i xp

/-- `AchievementService.calculateLevel`: highest threshold index reached,
plus one; `1` when the table is empty or nothing is reached. -/
def calculateLevel (xp : ℤ) : ℕ :=
  match LEVEL_THRESHOLDS.length with
  | 0 => 1
  | n + 1 => calcLevelAux LEVEL_THRESHOLDS n xp

/-- `AchievementService.awardXP`: adds the amount to the profile's XP,
recomputes the level, and reports whether a level-up happened.  The source
performs no validation of `amount`. -/
def awardXP (profile : UserProfile) (amount : ℤ) :
    (Bool × ℕ) × UserProfile :=
  let newXp := profile.xp + amount
  let newLevel := calculateLevel newXp
  let updated := { profile with xp := newXp, level := newLevel }
  ((decide (newLevel > profile.level), newLevel), updated)

/-! ## Time sessions (`TimeTrackingService`) -/

/-- Elapsed minutes between two millisecond timestamps, as computed by
`Math.round((b - a) / (1000 * 60))`. -/
def elapsedMinutes (a b : ℤ) : ℤ := jsRound ((b - a : ℤ) / (60000 : ℚ))

/-- Total minutes of closed breaks: the `reduce` in
`getRemainingSessionTime` adds `duration` only for breaks whose `endTime`
is set. -/
def closedBreakMinutes (breaks : List Break) : ℤ :=
  breaks.foldl (fun total b => match b.endTime with
    | some _ => total + b.duration
    | none => total) 0

/-- `TimeTrackingService.getRemainingSessionTime`, as a function of the
current session (`none` = no active session) and the current time `now`. -/
def getRemainingSessionTime (current : Option TimeSession) (now : ℤ) : ℤ :=
  match current with
  | none => 0
  | some s =>
      let elapsed := elapsedMinutes s.startTime now
      let breakTime := closedBreakMinutes s.breaks
      max 0 (s.duration - elapsed + breakTime)

/-- `TimeTrackingService.saveSession`: replace the stored session with the
same id, or prepend (`unshift`) when absent. -/
def saveSession (stored : List TimeSession) (s : TimeSession) : List TimeSession :=
  if stored.any (fun t => t.id = s.id) then
    stored.map (fun t => if t.id = s.id then s else t)
  else s :: stored

/-- `TimeTrackingService.endSession`, as a function of the stored session
list, the current session, and the current time.  Returns the new stored
list, the new current session (always `none` afterwards when one was
active), and the value returned to the caller (`undefined` = `none` when no
session was active). -/
def endSession (stored : List TimeSession) (current : Option TimeSession)
    (now : ℤ) : List TimeSession × Option TimeSession × Option TimeSession :=
  match current with
  | none => (stored, none, none)
  | some s =>
      let finalized := { s with
        endTime := some now
        isActive := false
        duration := elapsedMinutes s.startTime now }
      (saveSession stored finalized, none, some finalized)

/-! ## Achievement evaluator (`AchievementService`) -/

/-- The `ACHIEVEMENTS` catalog of `constants.ts`, in object-key order. -/
def ACHIEVEMENTS : List AchievementTemplate :=
  [⟨"first_activity", "Getting Started", 10⟩,
   ⟨"streak_7", "Week Warrior", 50⟩,
   ⟨"streak_30", "Monthly Master", 200⟩,
   ⟨"pomodoro_master", "Pomodoro Master", 100⟩,
   ⟨"code_reviewer", "Code Reviewer", 75⟩,
   ⟨"night_owl", "Night Owl", 25⟩,
   ⟨"early_bird", "Early Bird", 25⟩,
   ⟨"deep_focus", "Deep Focus", 150⟩]

/-- The achievement ids handled by the `switch` in `evaluateAchievement`;
any other id falls into the `default: return null` branch. -/
def knownAchievementIds : List String :=
  ["first_activity", "streak_7", "streak_30", "pomodoro_master",
   "code_reviewer", "night_owl", "early_bird", "deep_focus"]

/-- The raw (unrounded) progress percentage computed by the `switch` in
`evaluateAchievement`; `none` models the `default: return null` branch for
an unknown catalog id. -/
def achievementRawProgress (templateId : String) (activities : List Activity)
    (sessions : List TimeSession) (profile : UserProfile) : Option ℚ :=
  if templateId = "first_activity" then
    some (if activities.length > 0 then 100 else 0)
  else if templateId = "streak_7" then
    some (min ((profile.currentStreak : ℚ) / 7 * 100) 100)
  else if templateId = "streak_30" then
    some (min ((profile.currentStreak : ℚ) / 30 * 100) 100)
  else if templateId = "pomodoro_master" then
    some (min (((sessions.filter
      (fun s => s.type = "pomodoro" ∧ s.endTime.isSome)).length : ℚ) / 100 * 100) 100)
  else if templateId = "code_reviewer" then
    some (min (((activities.filter
      (fun a => a.category = "Code Review")).length : ℚ) / 50 * 100) 100)
  else if templateId = "night_owl" then
    some (min (((activities.filter
      (fun a => 0 ≤ a.hour ∧ a.hour < 6)).length : ℚ) / 10 * 100) 100)
  else if templateId = "early_bird" then
    some (min (((activities.filter
      (fun a => 5 ≤ a.hour ∧ a.hour < 8)).length : ℚ) / 10 * 100) 100)
  else if templateId = "deep_focus" then
    some (if (sessions.filter
      (fun s => s.type = "deep-work" ∧ s.endTime.isSome ∧ s.duration ≥ 120)).length > 0
      then 100 else 0)
  else
    none

/-- `AchievementService.evaluateAchievement`: `none` for an unknown id,
otherwise an `Achievement` record with rounded progress, `unlockedAt` set
exactly when the raw progress reaches 100. -/
def evaluateAchievement (template : AchievementTemplate)
    (activities : List Activity) (sessions : List TimeSession)
    (profile : UserProfile) (now : ℤ) : Option Achievement :=
  (achievementRawProgress template.id activities sessions profile).map fun p =>
    { id := template.id
      name := template.name
      xpReward := template.xpReward
      progress := jsRound p
      unlockedAt := if p ≥ 100 then some now else none }

/-- One loop iteration of `checkAchievements`: skip templates whose id is
already among the profile's achievements, otherwise evaluate, and on
progress ≥ 100 stamp `unlockedAt`, collect the new achievement and award
its XP to the (threaded) profile. -/
def checkStep (activities : List Activity) (sessions : List TimeSession)
    (original : UserProfile) (now : ℤ)
    (acc : List Achievement × UserProfile) (t : AchievementTemplate) :
    List Achievement × UserProfile :=
  match original.achievements.find? (fun a => a.id = t.id) with
  | some _ => acc
  | none =>
      match evaluateAchievement t activities sessions acc.2 now with
      | none => acc
      | some a =>
          if a.progress ≥ 100 then
            let unlocked := { a with unlockedAt := some now }
            (acc.1 ++ [unlocked], (awardXP acc.2 a.xpReward).2)
          else acc

/-- `AchievementService.checkAchievements`: fold over the catalog, then push
the newly unlocked achievements onto the profile.  Returns the list of new
achievements and the updated profile. -/
def checkAchievements (catalog : List AchievementTemplate)
    (activities : List Activity) (sessions : List TimeSession)
    (profile : UserProfile) (now : ℤ) : List Achievement × UserProfile :=
  let r := catalog.foldl (checkStep activities sessions profile now) ([], profile)
  (r.1, { r.2 with achievements := r.2.achievements ++ r.1 })

/-- `AchievementService.getAchievementProgress`: stored records pass through
unchanged, missing ones are evaluated; the result is sorted by descending
progress (`(a, b) => b.progress - a.progress`). -/
def getAchievementProgress (catalog : List AchievementTemplate)
    (activities : List Activity) (sessions : List TimeSession)
    (profile : UserProfile) (now : ℤ) : List Achievement :=
  let l := catalog.filterMap fun t =>
    match profile.achievements.find? (fun a => a.id = t.id) with
    | some existing => some existing
    | none => evaluateAchievement t activities sessions profile now
  l.insertionSort (fun a b => b.progress ≤ a.progress)

/-! ## Streaks

`ActivityLoggerProvider.calculateStreak` / `calculateLongestStreak` walk
backward from today's date while each day is present in the activity-date
set.  `AnalyticsService.analyzeStreakPatterns` instead scans the whole
sorted distinct date list, splitting it at gaps of more than one day.
Dates are day numbers; walking below day 0 is impossible in this model,
which only matters for date sets touching day 0. -/

/-- The backward walk of `ActivityLoggerProvider.calculateLongestStreak`:
`while (set[current]) { cur++; longest = max(longest, cur); current-- }`. -/
def longestWalk (dates : List ℕ) : ℕ → ℕ → ℕ → ℕ
  | 0, cur, longest =>
      if 0 ∈ dates then max longest (cur + 1) else longest
  | d + 1, cur, longest =>
      if d + 1 ∈ dates then longestWalk dates d (cur + 1) (max longest (cur + 1))
      else longest

/-- `ActivityLoggerProvider.calculateLongestStreak`, as a function of the
logged activities and today's date. -/
def calculateLongestStreak (activities : List Activity) (today : ℕ) : ℕ :=
  longestWalk (activities.map Activity.date) today 0 0

/-- The backward walk of `ActivityLoggerProvider.calculateStreak`:
`while (set[current]) { streak++; current-- }`. -/
def streakWalk (dates : List ℕ) : ℕ → ℕ → ℕ
  | 0, streak => if 0 ∈ dates then streak + 1 else streak
  | d + 1, streak =>
      if d + 1 ∈ dates then streakWalk dates d (streak + 1) else streak

/-- `ActivityLoggerProvider.calculateStreak`: the trailing run of
consecutive days with activity, ending at today. -/
def calculateStreak (activities : List Activity) (today : ℕ) : ℕ :=
  streakWalk (activities.map Activity.date) today 0

/-- The sorted distinct date list built by `analyzeStreakPatterns`
(`Object.keys(dailyActivity).sort()`). -/
def sortedDates (activities : List Activity) : List ℕ :=
  (activities.map Activity.date).dedup.insertionSort (· ≤ ·)

/-- The longest-streak loop of `analyzeStreakPatterns`: walk the sorted
date list, incrementing the current streak, and close a run when the next
date is more than one day away (`> 24h`) or the list ends. -/
def analyzeGo : List ℕ → ℕ → ℕ → ℕ
  | [], _, longest => longest
  | [_], cur, longest => max longest (cur + 1)
  | d :: d' :: rest, cur, longest =>
      if d' - d > 1 then analyzeGo (d' :: rest) 0 (max longest (cur + 1))
      else analyzeGo (d' :: rest) (cur + 1) longest

/-- The `longestStreak` field computed by
`AnalyticsService.analyzeStreakPatterns`. -/
def analyzeLongestStreak (activities : List Activity) : ℕ :=
  analyzeGo (sortedDates activities) 0 0

/-- Modelled from the spec's words ("scanning all maximal runs of
consecutive dates across the entire sorted date set"): split a sorted
distinct date list into its maximal runs of consecutive dates. -/
def splitRuns : List ℕ → List (List ℕ)
  | [] => []
  | [d] => [[d]]
  | d :: d' :: rest =>
      match splitRuns (d' :: rest) with
      | [] => [[d]]
      | r :: rs => if d' = d + 1 then (d :: r) :: rs else [d] :: r :: rs

/-- Modelled from the spec's words: the length of the longest maximal run
of consecutive dates in the sorted distinct date list. -/
def specLongestRun (dates : List ℕ) : ℕ :=
  ((splitRuns dates).map List.length).foldr max 0

/-- Proof-side bridge between `analyzeGo` and `splitRuns`: the longest run
length where the first run is extended by `cur` already-counted days. -/
def runsMax : List ℕ → ℕ → ℕ
  | [], _ => 0
  | [_], cur => cur + 1
  | d :: d' :: rest, cur =>
      if d' = d + 1 then runsMax (d' :: rest) (cur + 1)
      else max (cur + 1) (runsMax (d' :: rest) 0)

/-! ## Helper lemmas -/

/-- The `reduce`-style accumulator of `closedBreakMinutes` computes the sum
of the durations of the closed breaks. -/
theorem closedBreakMinutes_eq (bs : List Break) :
    closedBreakMinutes bs =
      ((bs.filter fun b => b.endTime.isSome).map Break.duration).sum := by
  suffices h : ∀ init : ℤ,
      bs.foldl (fun total b => match b.endTime with
        | some _ => total + b.duration
        | none => total) init =
      init + ((bs.filter fun b => b.endTime.isSome).map Break.duration).sum by
    simpa [closedBreakMinutes] using h 0
  induction bs with
  | nil => intro init; simp
  | cons b bs ih =>
      intro init
      cases hend : b.endTime with
      | none => simp [hend, ih]
      | some e => simp [hend, ih, add_assoc]

theorem calcLevelAux_pos (t : List ℤ) : ∀ (i : ℕ) (xp : ℤ), 1 ≤ calcLevelAux t i xp
  | 0, xp => by simp only [calcLevelAux]; split <;> simp
  | i + 1, xp => by
      simp only [calcLevelAux]
      split
      · omega
      · exact calcLevelAux_pos t i xp

theorem calcLevelAux_le (t : List ℤ) : ∀ (i : ℕ) (xp : ℤ), calcLevelAux t i xp ≤ i + 1
  | 0, xp => by simp only [calcLevelAux]; split <;> simp
  | i + 1, xp => by
      simp only [calcLevelAux]
      split
      · omega
      · exact le_trans (calcLevelAux_le t i xp) (by omega)

theorem calcLevelAux_mono (t : List ℤ) :
    ∀ (i : ℕ) {a b : ℤ}, a ≤ b → calcLevelAux t i a ≤ calcLevelAux t i b
  | 0, a, b, _ => by simp only [calcLevelAux]; split <;> split <;> simp
  | i + 1, a, b, hab => by
      simp only [calcLevelAux]
      by_cases ha : a ≥ t.getD (i + 1) 0
      · rw [if_pos ha, if_pos (le_trans ha hab)]
      · rw [if_neg ha]
        by_cases hb : b ≥ t.getD (i + 1) 0
        · rw [if_pos hb]
          exact le_trans (calcLevelAux_le t i a) (by omega)
        · rw [if_neg hb]
          exact calcLevelAux_mono t i hab

/-- The descending scan returns `k + 1` for `k` the highest index `≤ i`
whose threshold is reached, whenever some index `≤ i` is reached. -/
theorem calcLevelAux_spec (t : List ℤ) :
    ∀ (i : ℕ) (xp : ℤ), (∃ j, j ≤ i ∧ t.getD j 0 ≤ xp) →
      ∃ k, k ≤ i ∧ t.getD k 0 ≤ xp ∧ calcLevelAux t i xp = k + 1 ∧
        ∀ j, j ≤ i → t.getD j 0 ≤ xp → j ≤ k
  | 0, xp, hex => by
      obtain ⟨j, hj, hsat⟩ := hex
      interval_cases j
      refine ⟨0, le_refl 0, hsat, ?_, fun j hj _ => hj⟩
      simp only [calcLevelAux]
      rw [if_pos hsat]
  | i + 1, xp, hex => by
      by_cases h : t.getD (i + 1) 0 ≤ xp
      · refine ⟨i + 1, le_refl _, h, ?_, fun j hj _ => hj⟩
        simp only [calcLevelAux]
        rw [if_pos h]
      · obtain ⟨j, hj, hsat⟩ := hex
        have hj' : j ≤ i := by
          by_contra hcon
          have hji : j = i + 1 := by omega
          exact h (hji ▸ hsat)
        obtain ⟨k, hk, hksat, heq, hmax⟩ := calcLevelAux_spec t i xp ⟨j, hj', hsat⟩
        refine ⟨k, le_trans hk (by omega), hksat, ?_, ?_⟩
        · simp only [calcLevelAux]
          rw [if_neg h]
          exact heq
        · intro j' hj'' hsat'
          have : j' ≤ i := by
            by_contra hcon
            have hji : j' = i + 1 := by omega
            exact h (hji ▸ hsat')
          exact hmax j' this hsat'

theorem calculateLevel_eq (xp : ℤ) :
    calculateLevel xp = calcLevelAux LEVEL_THRESHOLDS 19 xp := rfl

/-- A record produced by `evaluateAchievement` carries the template's id. -/
theorem evaluateAchievement_id {t : AchievementTemplate} {acts : List Activity}
    {sess : List TimeSession} {prof : UserProfile} {now : ℤ} {a : Achievement}
    (h : evaluateAchievement t acts sess prof now = some a) : a.id = t.id := by
  unfold evaluateAchievement at h
  cases hraw : achievementRawProgress t.id acts sess prof with
  | none => rw [hraw] at h; simp at h
  | some p =>
      rw [hraw] at h
      simp only [Option.map_some'] at h
      rw [← Option.some.inj h]

/-- `awardXP` does not touch the achievement list. -/
theorem awardXP_achievements (p : UserProfile) (x : ℤ) :
    ((awardXP p x).2).achievements = p.achievements := rfl

/-- One `checkAchievements` step does not touch the profile's stored
achievement list. -/
theorem checkStep_achievements (acts : List Activity) (sess : List TimeSession)
    (original : UserProfile) (now : ℤ)
    (acc : List Achievement × UserProfile) (t : AchievementTemplate) :
    (checkStep acts sess original now acc t).2.achievements = acc.2.achievements := by
  unfold checkStep
  split
  · rfl
  · split
    · rfl
    · split
      · exact awardXP_achievements acc.2 _
      · rfl

/-- The whole `checkAchievements` fold does not touch the profile's stored
achievement list. -/
theorem checkFold_achievements (acts : List Activity) (sess : List TimeSession)
    (original : UserProfile) (now : ℤ) :
    ∀ (l : List AchievementTemplate) (acc : List Achievement × UserProfile),
      ((l.foldl (checkStep acts sess original now) acc).2).achievements =
        acc.2.achievements
  | [], acc => rfl
  | t :: l, acc => by
      rw [List.foldl_cons,
        checkFold_achievements acts sess original now l _,
        checkStep_achievements]

/-- Every achievement collected by the `checkAchievements` fold has an id
that is absent from the original profile's achievement list. -/
theorem checkFold_new_ids (acts : List Activity) (sess : List TimeSession)
    (original : UserProfile) (now : ℤ) :
    ∀ (l : List AchievementTemplate) (acc : List Achievement × UserProfile),
      (∀ n ∈ acc.1, original.achievements.find? (fun a => a.id = n.id) = none) →
      ∀ n ∈ (l.foldl (checkStep acts sess original now) acc).1,
        original.achievements.find? (fun a => a.id = n.id) = none
  | [], _, hacc => hacc
  | t :: l, acc, hacc => by
      rw [List.foldl_cons]
      refine checkFold_new_ids acts sess original now l _ ?_
      unfold checkStep
      split
      · exact hacc
      · next hfind =>
          split
          · exact hacc
          · next a heval =>
              split
              · intro n hn
                rcases List.mem_append.mp hn with hn | hn
                · exact hacc n hn
                · have hna : n = { a with unlockedAt := some now } := by
                    simpa using hn
                  have ha : a.id = t.id := evaluateAchievement_id heval
                  have hid : n.id = t.id := by rw [hna]; exact ha
                  rw [hid]
                  exact hfind
              · exact hacc

/-- The backward walk of `calculateLongestStreak` degenerates to the one of
`calculateStreak`: the running maximum always equals the running count. -/
theorem longestWalk_eq_streakWalk (dates : List ℕ) :
    ∀ (d cur : ℕ), longestWalk dates d cur cur = streakWalk dates d cur
  | 0, cur => by
      simp only [longestWalk, streakWalk]
      split
      · omega
      · rfl
  | d + 1, cur => by
      simp only [longestWalk, streakWalk]
      split
      · rw [Nat.max_eq_right (by omega)]
        exact longestWalk_eq_streakWalk dates d (cur + 1)
      · rfl

/-- The date list built by `analyzeStreakPatterns` is strictly
increasing. -/
theorem sortedDates_pairwise (acts : List Activity) :
    (sortedDates acts).Pairwise (· < ·) := by
  have hs : (sortedDates acts).Sorted (· ≤ ·) :=
    List.sorted_insertionSort (· ≤ ·) ((acts.map Activity.date).dedup)
  have hn : (sortedDates acts).Nodup :=
    (List.perm_insertionSort (· ≤ ·) ((acts.map Activity.date).dedup)).nodup_iff.mpr
      (List.nodup_dedup _)
  exact (hs.and hn).imp fun h => lt_of_le_of_ne h.1 h.2

/-- On a strictly increasing date list, the `analyzeStreakPatterns` loop
computes the longest run, with `cur` days credited to the first run. -/
theorem analyzeGo_runsMax :
    ∀ (l : List ℕ), l.Pairwise (· < ·) → ∀ (cur longest : ℕ),
      analyzeGo l cur longest = max longest (runsMax l cur)
  | [], _, cur, longest => by simp [analyzeGo, runsMax]
  | [d], _, cur, longest => by simp [analyzeGo, runsMax]
  | d :: d' :: rest, hpw, cur, longest => by
      have hdd : d < d' := (List.pairwise_cons.mp hpw).1 d' (by simp)
      have hpw' : (d' :: rest).Pairwise (· < ·) := (List.pairwise_cons.mp hpw).2
      by_cases h : d' = d + 1
      · have hgap : ¬ d' - d > 1 := by omega
        simp only [analyzeGo, runsMax, if_neg hgap, if_pos h]
        exact analyzeGo_runsMax (d' :: rest) hpw' (cur + 1) longest
      · have hgap : d' - d > 1 := by omega
        simp only [analyzeGo, runsMax, if_pos hgap, if_neg h]
        rw [analyzeGo_runsMax (d' :: rest) hpw' 0 (max longest (cur + 1))]
        exact Nat.max_assoc longest (cur + 1) (runsMax (d' :: rest) 0)

/-- `splitRuns` on a nonempty list yields a first run starting with the
head, and `runsMax` is the maximum of the first run's length (plus the
carry) and the lengths of the later runs. -/
theorem splitRuns_runsMax :
    ∀ (d : ℕ) (l : List ℕ), ∃ r rs,
      splitRuns (d :: l) = (d :: r) :: rs ∧
      ∀ cur : ℕ, runsMax (d :: l) cur =
        max (cur + r.length + 1) ((rs.map List.length).foldr max 0)
  | d, [] => by
      refine ⟨[], [], rfl, fun cur => ?_⟩
      simp [runsMax]
  | d, d' :: rest => by
      obtain ⟨r', rs', hsp, hrm⟩ := splitRuns_runsMax d' rest
      by_cases h : d' = d + 1
      · refine ⟨d' :: r', rs', ?_, fun cur => ?_⟩
        · simp only [splitRuns, hsp, if_pos h]
        · simp only [runsMax, if_pos h, hrm (cur + 1), List.length_cons]
          congr 1
          omega
      · refine ⟨[], (d' :: r') :: rs', ?_, fun cur => ?_⟩
        · simp only [splitRuns, hsp, if_neg h]
        · simp only [runsMax, if_neg h, hrm 0, List.map_cons, List.foldr_cons,
            List.length_cons, List.length_nil]
          congr 1
          omega

/-! ## Claim theorems -/

/-- C3: `calculateActivityXP` on an activity with duration 30, focus score
9 and category "Code Review", with a current streak of 3, returns exactly
34 = 5 (base) + 15 (30 min × 0.5) + 6 (3 streak days × 2) + 5 (focus ≥ 8)
+ 3 (Code Review bonus). -/
theorem calculateActivityXP_scenario :
    ∀ id date hour : ℕ,
      calculateActivityXP ⟨id, date, hour, "Code Review", some 30, some 9⟩ 3 = 34 ∧
      (34 : ℤ) = jsRound (5 + 30 * (1/2 : ℚ) + 3 * 2 + 5 + 3) := by
  intro id date hour
  constructor
  · norm_num [calculateActivityXP, jsRound, XP_PER_ACTIVITY, XP_PER_MINUTE,
      XP_BONUS_STREAK, categoryBonus]
  · norm_num [jsRound]

/-- C9: `endSession` with no active session returns `undefined` (`none`)
and leaves both the stored session list and the current-session slot
unchanged. -/
theorem endSession_noop_when_idle :
    ∀ (stored : List TimeSession) (now : ℤ),
      endSession stored none now = (stored, none, none) := by
  intro stored now
  rfl

/-- C7: `endSession` on an active session stamps `endTime := now`, clears
the active flag, overwrites `duration` with the wall-clock minutes from
start to end (independent of the recorded breaks, which pass through
unchanged), stores the finalized record, and returns it. -/
theorem endSession_finalizes :
    ∀ (stored : List TimeSession) (s : TimeSession) (now : ℤ),
      ∃ f : TimeSession,
        endSession stored (some s) now = (saveSession stored f, none, some f) ∧
        f.endTime = some now ∧
        f.isActive = false ∧
        f.duration = elapsedMinutes s.startTime now ∧
        f.breaks = s.breaks ∧
        f.startTime = s.startTime ∧
        f.id = s.id := by
  intro stored s now
  exact ⟨_, rfl, rfl, rfl, rfl, rfl, rfl, rfl⟩

/-- C6: the remaining time of an active session is
`max 0 (plannedDuration - elapsedMinutesSinceStart + sumOfClosedBreakDurations)`
(closed break time is credited back onto the countdown); in particular with
planned duration 60, 50 elapsed minutes and one closed 10-minute break the
remaining time is 20. -/
theorem remaining_time_formula :
    (∀ (s : TimeSession) (now : ℤ),
      getRemainingSessionTime (some s) now =
        max 0 (s.duration - elapsedMinutes s.startTime now +
          ((s.breaks.filter fun b => b.endTime.isSome).map Break.duration).sum)) ∧
    getRemainingSessionTime
      (some ⟨1, 0, none, 60, "pomodoro", true, [⟨0, some 600000, 10⟩], 10, 0⟩)
      (50 * 60000) = 20 := by
  constructor
  · intro s now
    simp only [getRemainingSessionTime, closedBreakMinutes_eq]
  · norm_num [getRemainingSessionTime, closedBreakMinutes, elapsedMinutes, jsRound]

/-- C4 counterexample: `awardXP` applied to a profile with 10 XP and the
negative amount −5 does not fail — it returns an updated profile whose XP
has been changed to 5, so negative amounts are not rejected with
`InvalidXPAmountError` and the XP is not left unchanged. -/
theorem awardXP_negative_counterexample :
    (awardXP ⟨1, 10, 0, 0, []⟩ (-5)).2.xp = 5 ∧ (5 : ℤ) ≠ 10 := by
  constructor
  · rfl
  · decide

/-- C4 amended: `awardXP` performs no validation of the amount: for every
amount, negative included, it adds the amount to the profile's XP,
recomputes the level from the new total, and leaves the achievement list
and streak fields untouched; no `InvalidXPAmountError` exists in the code. -/
theorem awardXP_no_validation :
    ∀ (p : UserProfile) (amount : ℤ),
      (awardXP p amount).2.xp = p.xp + amount ∧
      (awardXP p amount).2.level = calculateLevel (p.xp + amount) ∧
      (awardXP p amount).2.achievements = p.achievements ∧
      (awardXP p amount).2.currentStreak = p.currentStreak ∧
      (awardXP p amount).1.1 =
        decide (calculateLevel (p.xp + amount) > p.level) := by
  intro p amount
  exact ⟨rfl, rfl, rfl, rfl, rfl⟩

/-- C5: `calculateLevel` (the `levelFromXP` of the spec) is monotonically
non-decreasing, maps 0 XP to level 1, and for every non-negative XP equals
`i + 1` for `i` the highest index of the threshold table whose threshold
is reached. -/
theorem calculateLevel_spec :
    (∀ a b : ℤ, a ≤ b → calculateLevel a ≤ calculateLevel b) ∧
    calculateLevel 0 = 1 ∧
    (∀ xp : ℤ, 0 ≤ xp →
      ∃ i, i < LEVEL_THRESHOLDS.length ∧ LEVEL_THRESHOLDS.getD i 0 ≤ xp ∧
        calculateLevel xp = i + 1 ∧
        ∀ j, j < LEVEL_THRESHOLDS.length → LEVEL_THRESHOLDS.getD j 0 ≤ xp → j ≤ i) := by
  refine ⟨?_, ?_, ?_⟩
  · intro a b hab
    rw [calculateLevel_eq, calculateLevel_eq]
    exact calcLevelAux_mono LEVEL_THRESHOLDS 19 hab
  · decide
  · intro xp hxp
    have h0 : LEVEL_THRESHOLDS.getD 0 0 ≤ xp := by
      simpa [LEVEL_THRESHOLDS] using hxp
    obtain ⟨k, hk, hksat, heq, hmax⟩ :=
      calcLevelAux_spec LEVEL_THRESHOLDS 19 xp ⟨0, Nat.zero_le 19, h0⟩
    have hlen : LEVEL_THRESHOLDS.length = 20 := by decide
    refine ⟨k, by omega, hksat, ?_, ?_⟩
    · rw [calculateLevel_eq]; exact heq
    · intro j hj hsat
      exact hmax j (by omega) hsat

/-- C5 witness: monotonicity at 50 ≤ 150 and the highest-index
characterization at xp = 250, both obtained from `calculateLevel_spec`. -/
theorem calculateLevel_spec_witness :
    calculateLevel 50 ≤ calculateLevel 150 ∧
    (∃ i, i < LEVEL_THRESHOLDS.length ∧ LEVEL_THRESHOLDS.getD i 0 ≤ 250 ∧
      calculateLevel 250 = i + 1 ∧
      ∀ j, j < LEVEL_THRESHOLDS.length → LEVEL_THRESHOLDS.getD j 0 ≤ 250 → j ≤ i) :=
  ⟨calculateLevel_spec.1 50 150 (by decide),
   calculateLevel_spec.2.2 250 (by decide)⟩

/-- C10: for every non-negative XP value, however large, the computed level
lies between 1 and 20, the length of the threshold table: the level is
capped at 20. -/
theorem calculateLevel_bounds :
    ∀ xp : ℤ, 0 ≤ xp →
      1 ≤ calculateLevel xp ∧ calculateLevel xp ≤ 20 ∧
      LEVEL_THRESHOLDS.length = 20 := by
  intro xp _
  refine ⟨?_, ?_, by decide⟩
  · rw [calculateLevel_eq]
    exact calcLevelAux_pos LEVEL_THRESHOLDS 19 xp
  · rw [calculateLevel_eq]
    exact calcLevelAux_le LEVEL_THRESHOLDS 19 xp

/-- C10 witness: the bounds instantiated at xp = 123456, far beyond the
last threshold. -/
theorem calculateLevel_bounds_witness :
    1 ≤ calculateLevel 123456 ∧ calculateLevel 123456 ≤ 20 ∧
      LEVEL_THRESHOLDS.length = 20 :=
  calculateLevel_bounds 123456 (by decide)

/-- C2: once an achievement record is stored in the profile, later
evaluations never recompute it: `getAchievementProgress` returns the stored
record itself (every output record with its id *is* the stored record, so a
stored progress of 100 can never drop), and `checkAchievements` neither
re-unlocks that id nor alters the stored record in the profile. -/
theorem stored_achievements_frozen :
    ∀ (catalog : List AchievementTemplate) (acts : List Activity)
      (sess : List TimeSession) (profile : UserProfile) (now : ℤ)
      (t : AchievementTemplate) (ex : Achievement),
      t ∈ catalog →
      profile.achievements.find? (fun a => a.id = t.id) = some ex →
      ex ∈ getAchievementProgress catalog acts sess profile now ∧
      (∀ r ∈ getAchievementProgress catalog acts sess profile now,
        r.id = ex.id → r = ex) ∧
      ex ∈ (checkAchievements catalog acts sess profile now).2.achievements ∧
      (∀ n ∈ (checkAchievements catalog acts sess profile now).1, n.id ≠ ex.id) := by
  intro catalog acts sess profile now t ex ht hfind
  have hexid : ex.id = t.id := by
    have := List.find?_some hfind
    simpa using this
  have hperm :
      List.Perm (getAchievementProgress catalog acts sess profile now)
        (catalog.filterMap (fun t' =>
          match profile.achievements.find? (fun a => a.id = t'.id) with
          | some existing => some existing
          | none => evaluateAchievement t' acts sess profile now)) :=
    List.perm_insertionSort _ _
  refine ⟨?_, ?_, ?_, ?_⟩
  · rw [hperm.mem_iff]
    exact List.mem_filterMap.mpr ⟨t, ht, by rw [hfind]⟩
  · intro r hr hrid
    rw [hperm.mem_iff] at hr
    obtain ⟨t', ht', hft'⟩ := List.mem_filterMap.mp hr
    revert hft'
    cases hfind' : profile.achievements.find? (fun a => a.id = t'.id) with
    | some ex' =>
        intro hft'
        have hrex : r = ex' := (Option.some.inj hft').symm
        have hexid' : ex'.id = t'.id := by
          have := List.find?_some hfind'
          simpa using this
        have htt : t'.id = t.id := by
          rw [← hexid', ← hrex, hrid, hexid]
        rw [htt] at hfind'
        rw [hfind] at hfind'
        rw [hrex, Option.some.inj hfind']
    | none =>
        intro hft'
        have hrid' : r.id = t'.id := evaluateAchievement_id hft'
        have htt : t'.id = t.id := by rw [← hrid', hrid, hexid]
        rw [htt] at hfind'
        rw [hfind] at hfind'
        exact absurd hfind' (by simp)
  · have hach :
        (checkAchievements catalog acts sess profile now).2.achievements =
          profile.achievements ++
            (checkAchievements catalog acts sess profile now).1 := by
      unfold checkAchievements
      simp only
      rw [checkFold_achievements]
    rw [hach]
    exact List.mem_append_left _ (List.mem_of_find?_eq_some hfind)
  · intro n hn hne
    have hnone : profile.achievements.find? (fun a => a.id = n.id) = none := by
      refine checkFold_new_ids acts sess profile now catalog ([], profile) ?_ n ?_
      · intro m hm
        simp at hm
      · exact hn
    rw [hne, hexid] at hnone
    rw [hfind] at hnone
    exact absurd hnone (by simp)

/-- C2 witness: a profile that already stores the unlocked
`first_activity` achievement (progress 100) keeps that exact record through
both `getAchievementProgress` and `checkAchievements` over the real
catalog. -/
theorem stored_achievements_frozen_witness :
    (⟨"first_activity", "Getting Started", 10, 100, some 42⟩ : Achievement) ∈
      getAchievementProgress ACHIEVEMENTS [] []
        ⟨3, 500, 2, 5, [⟨"first_activity", "Getting Started", 10, 100, some 42⟩]⟩ 0 ∧
    (∀ r ∈ getAchievementProgress ACHIEVEMENTS [] []
        ⟨3, 500, 2, 5, [⟨"first_activity", "Getting Started", 10, 100, some 42⟩]⟩ 0,
      r.id = (⟨"first_activity", "Getting Started", 10, 100, some 42⟩ : Achievement).id →
        r = ⟨"first_activity", "Getting Started", 10, 100, some 42⟩) ∧
    (⟨"first_activity", "Getting Started", 10, 100, some 42⟩ : Achievement) ∈
      (checkAchievements ACHIEVEMENTS [] []
        ⟨3, 500, 2, 5, [⟨"first_activity", "Getting Started", 10, 100, some 42⟩]⟩ 0).2.achievements ∧
    (∀ n ∈ (checkAchievements ACHIEVEMENTS [] []
        ⟨3, 500, 2, 5, [⟨"first_activity", "Getting Started", 10, 100, some 42⟩]⟩ 0).1,
      n.id ≠ (⟨"first_activity", "Getting Started", 10, 100, some 42⟩ : Achievement).id) :=
  stored_achievements_frozen ACHIEVEMENTS [] []
    ⟨3, 500, 2, 5, [⟨"first_activity", "Getting Started", 10, 100, some 42⟩]⟩ 0
    ⟨"first_activity", "Getting Started", 10⟩
    ⟨"first_activity", "Getting Started", 10, 100, some 42⟩
    (by decide) (by rfl)

/-- C8 counterexample: a catalog entry with the unknown requirement kind
"bogus" does not make evaluation fail with any error: `evaluateAchievement`
returns `null`, `checkAchievements` silently unlocks nothing and leaves the
profile untouched, and `getAchievementProgress` silently omits the entry. -/
theorem unknown_achievement_counterexample :
    evaluateAchievement ⟨"bogus", "Bogus", 0⟩ [] [] ⟨1, 0, 0, 0, []⟩ 0 = none ∧
    checkAchievements [⟨"bogus", "Bogus", 0⟩] [] [] ⟨1, 0, 0, 0, []⟩ 0 =
      ([], ⟨1, 0, 0, 0, []⟩) ∧
    getAchievementProgress [⟨"bogus", "Bogus", 0⟩] [] [] ⟨1, 0, 0, 0, []⟩ 0 = [] := by
  refine ⟨rfl, rfl, rfl⟩

/-- C8 amended: the code has no `AchievementCatalogMismatchError`; a
catalog entry whose id is not one of the eight handled kinds is silently
suppressed: `evaluateAchievement` returns `null` (`none`),
`checkAchievements` is a no-op for it, and `getAchievementProgress` omits
it from the report. -/
theorem unknown_achievement_skipped :
    ∀ (t : AchievementTemplate) (acts : List Activity) (sess : List TimeSession)
      (prof : UserProfile) (now : ℤ),
      t.id ∉ knownAchievementIds →
      prof.achievements.find? (fun a => a.id = t.id) = none →
      evaluateAchievement t acts sess prof now = none ∧
      checkAchievements [t] acts sess prof now = ([], prof) ∧
      getAchievementProgress [t] acts sess prof now = [] := by
  intro t acts sess prof now hunk hfind
  have hraw : achievementRawProgress t.id acts sess prof = none := by
    simp only [knownAchievementIds, List.mem_cons, List.not_mem_nil, or_false,
      not_or] at hunk
    obtain ⟨h1, h2, h3, h4, h5, h6, h7, h8⟩ := hunk
    simp only [achievementRawProgress, h1, h2, h3, h4, h5, h6, h7, h8,
      if_false]
  have heval : evaluateAchievement t acts sess prof now = none := by
    unfold evaluateAchievement
    rw [hraw]
    rfl
  refine ⟨heval, ?_, ?_⟩
  · unfold checkAchievements
    simp only [List.foldl_cons, List.foldl_nil]
    unfold checkStep
    rw [hfind, heval]
    simp
  · unfold getAchievementProgress
    simp only [List.filterMap_cons, List.filterMap_nil]
    rw [hfind, heval]
    rfl

/-- C1 counterexample: with activities on days 3, 4, 5 and 10 and today =
day 10, `ActivityLoggerProvider.calculateLongestStreak` returns 1 (the
trailing run of consecutive dates ending at today), not 3, the length of
the longest run of consecutive dates anywhere in history (which
`analyzeStreakPatterns` does return). -/
theorem longestStreak_trailing_counterexample :
    calculateLongestStreak
      [⟨0, 3, 12, "Coding", none, none⟩, ⟨1, 4, 12, "Coding", none, none⟩,
       ⟨2, 5, 12, "Coding", none, none⟩, ⟨3, 10, 12, "Coding", none, none⟩] 10 = 1 ∧
    specLongestRun (sortedDates
      [⟨0, 3, 12, "Coding", none, none⟩, ⟨1, 4, 12, "Coding", none, none⟩,
       ⟨2, 5, 12, "Coding", none, none⟩, ⟨3, 10, 12, "Coding", none, none⟩]) = 3 ∧
    analyzeLongestStreak
      [⟨0, 3, 12, "Coding", none, none⟩, ⟨1, 4, 12, "Coding", none, none⟩,
       ⟨2, 5, 12, "Coding", none, none⟩, ⟨3, 10, 12, "Coding", none, none⟩] = 3 ∧
    (1 : ℕ) ≠ 3 := by
  refine ⟨by decide, by decide, by decide, by decide⟩

/-- C1 amended: only the analytics aggregator's `analyzeStreakPatterns`
computes the longest streak by scanning all maximal runs of consecutive
dates across the entire sorted distinct date set — for every activity list
its `longestStreak` equals the length of the longest such run anywhere in
history; the activity logger's `calculateLongestStreak` instead only walks
the trailing run of consecutive dates ending at today (it coincides with
`calculateStreak`). -/
theorem analyzeLongestStreak_eq_specLongestRun :
    (∀ (activities : List Activity) (today : ℕ),
      calculateLongestStreak activities today = calculateStreak activities today) ∧
    ∀ (activities : List Activity),
      analyzeLongestStreak activities = specLongestRun (sortedDates activities) := by
  refine ⟨?_, ?_⟩
  · intro activities today
    exact longestWalk_eq_streakWalk (activities.map Activity.date) today 0
  intro activities
  unfold analyzeLongestStreak
  cases hl : sortedDates activities with
  | nil => rfl
  | cons d l =>
      have hpw : (d :: l).Pairwise (· < ·) := hl ▸ sortedDates_pairwise activities
      obtain ⟨r, rs, hsp, hrm⟩ := splitRuns_runsMax d l
      rw [analyzeGo_runsMax (d :: l) hpw 0 0, hrm 0]
      unfold specLongestRun
      rw [hsp]
      simp only [List.map_cons, List.foldr_cons, List.length_cons, Nat.zero_add,
        Nat.zero_max]

/-- C8 witness: the amended behavior at the concrete unknown entry
"bogus" against an empty profile. -/
theorem unknown_achievement_skipped_witness :
    evaluateAchievement ⟨"bogus2", "Bogus", 7⟩ [] [] ⟨1, 5, 0, 0, []⟩ 3 = none ∧
    checkAchievements [⟨"bogus2", "Bogus", 7⟩] [] [] ⟨1, 5, 0, 0, []⟩ 3 =
      ([], ⟨1, 5, 0, 0, []⟩) ∧
    getAchievementProgress [⟨"bogus2", "Bogus", 7⟩] [] [] ⟨1, 5, 0, 0, []⟩ 3 = [] :=
  unknown_achievement_skipped ⟨"bogus2", "Bogus", 7⟩ [] [] ⟨1, 5, 0, 0, []⟩ 3
    (by decide) (by rfl)

end MyCroft
